import Mathlib

set_option maxRecDepth 8192

/-!
Verification of the ECDSA bridge module (`openssl/ecdsa.go`) of
kastenhq/go-crypto-openssl.

The module is a boundary layer between Go values and a native OpenSSL
engine.  We embed it shallowly:

* the native engine is an oracle (`ECEngine`): a structure whose fields give
  the outcome of each native call (null results are `none`, zero statuses are
  `false`/`0`), with native handles represented as `Nat`;
* native resource allocation and release are recorded as an explicit event
  trace (`Event`), so resource-balance properties can be stated over traces;
* the ASN.1/DER codec for the two-integer signature sequence lives in the Go
  standard library, outside this repository; it is modelled from the spec
  (standard DER for a `SEQUENCE` of two `INTEGER`s, minimal encodings) in the
  `Der` namespace below;
* Go's `(value, error)` returns become `Except GoError`.
-/

namespace Der

/-- Big-endian byte-sequence value: `bytesToNat [a, b] = a * 256 + b`. -/
def bytesToNat (bs : List Nat) : Nat :=
  bs.foldl (fun a b => a * 256 + b) 0

/-- Little-endian byte-sequence value, used to reason about `natToBytesLE`. -/
def bytesToNatLE (bs : List Nat) : Nat :=
  bs.foldr (fun b a => b + 256 * a) 0

/-- Fuel-driven digit extraction; `fuel ≥ n` makes it exact, and structural
recursion keeps it kernel-computable. -/
def natToBytesLEAux (fuel : Nat) (n : Nat) : List Nat :=
  match fuel with
  | 0 => []
  | f + 1 => if n = 0 then [] else (n % 256) :: natToBytesLEAux f (n / 256)

/-- Little-endian minimal byte representation of a natural number
(the reverse of `big.Int.Bytes`). -/
def natToBytesLE (n : Nat) : List Nat :=
  natToBytesLEAux n n

/-- Big-endian minimal byte representation, as `big.Int.Bytes` produces:
empty for `0`, leading byte nonzero otherwise. -/
def natToBytes (n : Nat) : List Nat :=
  (natToBytesLE n).reverse

theorem natToBytesLEAux_congr :
    ∀ f1 f2 n : Nat, n ≤ f1 → n ≤ f2 → natToBytesLEAux f1 n = natToBytesLEAux f2 n := by
  intro f1
  induction f1 with
  | zero =>
    intro f2 n h1 _
    have : n = 0 := by omega
    subst this
    cases f2 with
    | zero => rfl
    | succ f => simp [natToBytesLEAux]
  | succ f ih =>
    intro f2 n h1 h2
    cases f2 with
    | zero =>
      have : n = 0 := by omega
      subst this
      simp [natToBytesLEAux]
    | succ g =>
      by_cases hn : n = 0
      · subst hn; simp [natToBytesLEAux]
      · show (if n = 0 then [] else (n % 256) :: natToBytesLEAux f (n / 256))
          = (if n = 0 then [] else (n % 256) :: natToBytesLEAux g (n / 256))
        rw [if_neg hn, if_neg hn]
        have hdiv : n / 256 < n := Nat.div_lt_self (Nat.pos_of_ne_zero hn) (by omega)
        rw [ih g (n / 256) (by omega) (by omega)]

theorem natToBytesLE_zero : natToBytesLE 0 = [] := rfl

theorem natToBytesLE_eq {n : Nat} (h : n ≠ 0) :
    natToBytesLE n = (n % 256) :: natToBytesLE (n / 256) := by
  cases hn : n with
  | zero => exact absurd hn h
  | succ k =>
    subst hn
    show natToBytesLEAux (k + 1) (k + 1) = _
    rw [show natToBytesLEAux (k + 1) (k + 1)
      = if k + 1 = 0 then [] else ((k + 1) % 256) :: natToBytesLEAux k ((k + 1) / 256) from rfl]
    rw [if_neg h]
    have hdiv : (k + 1) / 256 < k + 1 := Nat.div_lt_self (by omega) (by omega)
    rw [natToBytesLEAux_congr k ((k + 1) / 256) ((k + 1) / 256) (by omega) (le_refl _)]
    rfl

/-- A list of genuine byte values. -/
def ValidBytes (bs : List Nat) : Prop := ∀ b ∈ bs, b < 256

theorem validBytes_cons {b : Nat} {t : List Nat} (h : ValidBytes (b :: t)) :
    b < 256 ∧ ValidBytes t := by
  constructor
  · exact h b (List.mem_cons_self b t)
  · intro x hx; exact h x (List.mem_cons_of_mem b hx)

theorem validBytes_take {bs : List Nat} (h : ValidBytes bs) (n : Nat) :
    ValidBytes (bs.take n) := by
  intro x hx; exact h x (List.take_subset n bs hx)

theorem validBytes_drop {bs : List Nat} (h : ValidBytes bs) (n : Nat) :
    ValidBytes (bs.drop n) := by
  intro x hx; exact h x (List.drop_subset n bs hx)

theorem validBytes_reverse {bs : List Nat} (h : ValidBytes bs) :
    ValidBytes bs.reverse := by
  intro x hx; exact h x (List.mem_reverse.mp hx)

theorem bytesToNatLE_nil : bytesToNatLE [] = 0 := rfl

theorem bytesToNatLE_cons (b : Nat) (t : List Nat) :
    bytesToNatLE (b :: t) = b + 256 * bytesToNatLE t := rfl

theorem foldl_byte_acc (l : List Nat) (a : Nat) :
    l.foldl (fun x b => x * 256 + b) a = a * 256 ^ l.length + bytesToNat l := by
  induction l generalizing a with
  | nil => simp [bytesToNat]
  | cons b t ih =>
    simp only [List.foldl_cons, List.length_cons, bytesToNat]
    rw [ih (a * 256 + b), ih (0 * 256 + b)]
    ring

theorem bytesToNat_cons (b : Nat) (t : List Nat) :
    bytesToNat (b :: t) = b * 256 ^ t.length + bytesToNat t := by
  show (b :: t).foldl (fun x c => x * 256 + c) 0 = _
  simp only [List.foldl_cons]
  rw [foldl_byte_acc t (0 * 256 + b)]
  ring

theorem bytesToNat_zero_cons (t : List Nat) : bytesToNat (0 :: t) = bytesToNat t := by
  rw [bytesToNat_cons]; ring

theorem bytesToNat_append_single (l : List Nat) (b : Nat) :
    bytesToNat (l ++ [b]) = 256 * bytesToNat l + b := by
  simp only [bytesToNat, List.foldl_append, List.foldl_cons, List.foldl_nil]
  ring

theorem bytesToNat_reverse (l : List Nat) :
    bytesToNat l.reverse = bytesToNatLE l := by
  induction l with
  | nil => rfl
  | cons b t ih =>
    rw [List.reverse_cons, bytesToNat_append_single, ih, bytesToNatLE_cons]
    ring

theorem bytesToNatLE_natToBytesLE (n : Nat) :
    bytesToNatLE (natToBytesLE n) = n := by
  induction n using Nat.strong_induction_on with
  | _ n ih =>
    by_cases h : n = 0
    · subst h; rw [natToBytesLE_zero, bytesToNatLE_nil]
    · rw [natToBytesLE_eq h, bytesToNatLE_cons,
        ih (n / 256) (Nat.div_lt_self (Nat.pos_of_ne_zero h) (by omega))]
      omega

theorem bytesToNat_natToBytes (n : Nat) : bytesToNat (natToBytes n) = n := by
  rw [natToBytes, bytesToNat_reverse, bytesToNatLE_natToBytesLE]

theorem natToBytesLE_valid (n : Nat) : ValidBytes (natToBytesLE n) := by
  induction n using Nat.strong_induction_on with
  | _ n ih =>
    by_cases h : n = 0
    · subst h; rw [natToBytesLE_zero]; intro x hx; cases hx
    · rw [natToBytesLE_eq h]
      intro x hx
      rcases List.mem_cons.mp hx with h1 | h2
      · subst h1; exact Nat.mod_lt _ (by omega)
      · exact ih (n / 256) (Nat.div_lt_self (Nat.pos_of_ne_zero h) (by omega)) x h2

theorem natToBytes_valid (n : Nat) : ValidBytes (natToBytes n) :=
  validBytes_reverse (natToBytesLE_valid n)

theorem natToBytesLE_ne_nil {n : Nat} (h : n ≠ 0) : natToBytesLE n ≠ [] := by
  rw [natToBytesLE_eq h]; simp

theorem natToBytesLE_getLast : ∀ n : Nat, n ≠ 0 → (natToBytesLE n).getLast? ≠ some 0 := by
  intro n
  induction n using Nat.strong_induction_on with
  | _ n ih =>
    intro h
    rw [natToBytesLE_eq h]
    by_cases hq : n / 256 = 0
    · have hlt : n < 256 := by omega
      have hmod : n % 256 = n := Nat.mod_eq_of_lt hlt
      rw [hq, natToBytesLE_zero, hmod]
      simp [h]
    · have hrec := ih (n / 256) (Nat.div_lt_self (Nat.pos_of_ne_zero h) (by omega)) hq
      cases hc : natToBytesLE (n / 256) with
      | nil => exact absurd hc (natToBytesLE_ne_nil hq)
      | cons c t =>
        rw [hc] at hrec
        rw [List.getLast?_cons_cons]
        exact hrec

theorem natToBytesLE_bytesToNatLE (l : List Nat) (hv : ValidBytes l)
    (hl : l.getLast? ≠ some 0) : natToBytesLE (bytesToNatLE l) = l := by
  induction l with
  | nil => rw [bytesToNatLE_nil, natToBytesLE_zero]
  | cons b t ih =>
    obtain ⟨hb, hvt⟩ := validBytes_cons hv
    rw [bytesToNatLE_cons]
    cases t with
    | nil =>
      have hb0 : b ≠ 0 := by
        intro h; apply hl; simp [h]
      rw [bytesToNatLE_nil]
      have hne : b + 256 * 0 ≠ 0 := by omega
      rw [natToBytesLE_eq hne]
      have h1 : (b + 256 * 0) % 256 = b := by omega
      have h2 : (b + 256 * 0) / 256 = 0 := by omega
      rw [h1, h2, natToBytesLE_zero]
    | cons c t2 =>
      have hlt : (c :: t2).getLast? ≠ some 0 := by
        rwa [List.getLast?_cons_cons] at hl
      have iht := ih hvt hlt
      have hv0 : bytesToNatLE (c :: t2) ≠ 0 := by
        intro h0
        rw [h0, natToBytesLE_zero] at iht
        exact List.cons_ne_nil _ _ iht.symm
      set v := bytesToNatLE (c :: t2) with hvdef
      have hne : b + 256 * v ≠ 0 := by omega
      rw [natToBytesLE_eq hne]
      have h1 : (b + 256 * v) % 256 = b := by omega
      have h2 : (b + 256 * v) / 256 = v := by omega
      rw [h1, h2, iht]

/-- Canonical inverse: a big-endian byte list with nonzero leading byte is
recovered from its value. -/
theorem natToBytes_bytesToNat {b : Nat} {t : List Nat}
    (hv : ValidBytes (b :: t)) (hb : b ≠ 0) :
    natToBytes (bytesToNat (b :: t)) = b :: t := by
  have h1 : bytesToNat (b :: t) = bytesToNatLE (b :: t).reverse := by
    rw [← bytesToNat_reverse, List.reverse_reverse]
  rw [natToBytes, h1]
  have hlast : (b :: t).reverse.getLast? ≠ some 0 := by
    rw [List.getLast?_reverse]
    simp [hb]
  rw [natToBytesLE_bytesToNatLE _ (validBytes_reverse hv) hlast, List.reverse_reverse]

theorem natToBytes_shape {n : Nat} (h : n ≠ 0) :
    ∃ b t, natToBytes n = b :: t ∧ b ≠ 0 ∧ b < 256 := by
  have hne : natToBytes n ≠ [] := by
    rw [natToBytes]
    simpa using natToBytesLE_ne_nil h
  cases hbt : natToBytes n with
  | nil => exact absurd hbt hne
  | cons b t =>
    refine ⟨b, t, rfl, ?_, ?_⟩
    · intro hb0
      apply natToBytesLE_getLast n h
      rw [← List.head?_reverse, ← natToBytes, hbt, hb0]
      rfl
    · have := natToBytes_valid n
      rw [hbt] at this
      exact (validBytes_cons this).1

theorem bytesToNat_pos {b : Nat} (t : List Nat) (hb : b ≠ 0) :
    0 < bytesToNat (b :: t) := by
  rw [bytesToNat_cons]
  have h1 : 0 < 256 ^ t.length := pow_pos (by omega) _
  have h2 : 1 * 1 ≤ b * 256 ^ t.length := Nat.mul_le_mul (by omega) h1
  omega

/-- Bytewise complement (`b ^= 0xff` on genuine bytes). -/
def notBytes (bs : List Nat) : List Nat := bs.map (fun b => 255 - b)

theorem notBytes_valid (bs : List Nat) : ValidBytes (notBytes bs) := by
  intro x hx
  rcases List.mem_map.mp hx with ⟨b, _, hb⟩
  omega

theorem notBytes_notBytes {bs : List Nat} (h : ValidBytes bs) :
    notBytes (notBytes bs) = bs := by
  induction bs with
  | nil => rfl
  | cons b t ih =>
    obtain ⟨hb, hvt⟩ := validBytes_cons h
    show (255 - (255 - b)) :: notBytes (notBytes t) = b :: t
    rw [ih hvt]
    congr 1
    omega

/-- Modelled from the spec: minimality check of the external ASN.1 codec on
INTEGER contents (rejects empty contents and superfluous leading `0x00`/`0xff`
bytes). -/
def checkInteger : List Nat → Bool
  | [] => false
  | [_] => true
  | b0 :: b1 :: _ =>
      !(((b0 == 0) && decide (b1 < 128)) || ((b0 == 255) && decide (128 ≤ b1)))

/-- Modelled from the spec: the external ASN.1 codec's INTEGER content
decoder — minimal big-endian two's complement, sign given by the top bit of
the leading byte. -/
def parseBigInt (bs : List Nat) : Option Int :=
  if checkInteger bs then
    if 128 ≤ bs.headD 0 then some (-(((bytesToNat (notBytes bs)) : Int) + 1))
    else some ((bytesToNat bs : Int))
  else none

/-- Modelled from the spec: the external ASN.1 codec's INTEGER content
encoder — minimal big-endian two's complement of an arbitrary-precision
integer. -/
def intDERBytes (n : Int) : List Nat :=
  if n < 0 then
    if 128 ≤ (notBytes (natToBytes (-n - 1).toNat)).headD 0 then
      notBytes (natToBytes (-n - 1).toNat)
    else 255 :: notBytes (natToBytes (-n - 1).toNat)
  else if n = 0 then [0]
  else
    if 128 ≤ (natToBytes n.toNat).headD 255 then 0 :: natToBytes n.toNat
    else natToBytes n.toNat

theorem natToBytes_zero : natToBytes 0 = [] := by
  rw [natToBytes, natToBytesLE_zero]; rfl

theorem intDERBytes_valid (n : Int) : ValidBytes (intDERBytes n) := by
  rw [intDERBytes]
  split
  · have hval : ValidBytes (notBytes (natToBytes (-n - 1).toNat)) :=
      notBytes_valid _
    split
    · exact hval
    · intro x hx
      rcases List.mem_cons.mp hx with h1 | h2
      · omega
      · exact hval x h2
  · split
    · intro x hx; simp at hx; omega
    · have hval : ValidBytes (natToBytes n.toNat) := natToBytes_valid _
      split
      · intro x hx
        rcases List.mem_cons.mp hx with h1 | h2
        · omega
        · exact hval x h2
      · exact hval

theorem parseBigInt_intDERBytes (n : Int) : parseBigInt (intDERBytes n) = some n := by
  rcases lt_trichotomy n 0 with hneg | hzero | hpos
  · -- negative branch
    rw [intDERBytes, if_pos hneg]
    have hm : (0 : Int) ≤ -n - 1 := by omega
    have hmn : ((-n - 1).toNat : Int) = -n - 1 := Int.toNat_of_nonneg hm
    set m := (-n - 1).toNat with hmdef
    by_cases hm0 : m = 0
    · rw [hm0, natToBytes_zero]
      show parseBigInt (if 128 ≤ (notBytes []).headD 0 then notBytes []
        else 255 :: notBytes []) = some n
      have hn1 : n = -1 := by rw [hm0] at hmn; omega
      rw [hn1]
      decide
    · obtain ⟨b, t, hbt, hb0, hblt⟩ := natToBytes_shape hm0
      have hvalbt : ValidBytes (b :: t) := by rw [← hbt]; exact natToBytes_valid m
      have hsum : bytesToNat (b :: t) = m := by rw [← hbt, bytesToNat_natToBytes]
      rw [hbt]
      have hnb : notBytes (b :: t) = (255 - b) :: notBytes t := rfl
      rw [hnb, List.headD_cons]
      have hinv : notBytes ((255 - b) :: notBytes t) = b :: t := by
        rw [← hnb, notBytes_notBytes hvalbt]
      by_cases hc : 128 ≤ 255 - b
      · rw [if_pos hc, parseBigInt]
        have hchk : checkInteger ((255 - b) :: notBytes t) = true := by
          cases hx : notBytes t with
          | nil => rfl
          | cons c t2 =>
            simp [checkInteger]
            omega
        rw [hchk, if_pos rfl, List.headD_cons, if_pos hc, hinv, hsum]
        congr 1
        omega
      · rw [if_neg hc, parseBigInt]
        have hchk : checkInteger (255 :: (255 - b) :: notBytes t) = true := by
          simp [checkInteger]
          omega
        rw [hchk, if_pos rfl, List.headD_cons, if_pos (by omega : 128 ≤ 255)]
        have hnot : notBytes (255 :: (255 - b) :: notBytes t) = 0 :: b :: t := by
          show (255 - 255) :: notBytes ((255 - b) :: notBytes t) = 0 :: b :: t
          rw [hinv]
        rw [hnot, bytesToNat_zero_cons, hsum]
        congr 1
        omega
  · subst hzero
    rw [intDERBytes]
    norm_num
    decide
  · -- positive branch
    have hnz : n.toNat ≠ 0 := by omega
    have hton : (n.toNat : Int) = n := Int.toNat_of_nonneg (by omega)
    obtain ⟨b, t, hbt, hb0, hblt⟩ := natToBytes_shape hnz
    have hvalbt : ValidBytes (b :: t) := by rw [← hbt]; exact natToBytes_valid _
    have hsum : bytesToNat (b :: t) = n.toNat := by rw [← hbt, bytesToNat_natToBytes]
    rw [intDERBytes, if_neg (by omega), if_neg (by omega), hbt, List.headD_cons]
    by_cases hc : 128 ≤ b
    · rw [if_pos hc, parseBigInt]
      have hchk : checkInteger (0 :: b :: t) = true := by
        simp [checkInteger]
        omega
      rw [hchk, if_pos rfl, List.headD_cons, if_neg (by omega : ¬ 128 ≤ 0),
        bytesToNat_zero_cons, hsum, hton]
    · rw [if_neg hc, parseBigInt]
      have hchk : checkInteger (b :: t) = true := by
        cases t with
        | nil => rfl
        | cons c t2 =>
          simp [checkInteger]
          omega
      rw [hchk, if_pos rfl, List.headD_cons, if_neg hc, hsum, hton]

/-- Canonicity: the decoder accepts exactly the minimal encodings, so a
successfully decoded INTEGER content re-encodes to the same bytes. -/
theorem intDERBytes_parseBigInt {bs : List Nat} (hv : ValidBytes bs) {v : Int}
    (h : parseBigInt bs = some v) : intDERBytes v = bs := by
  rw [parseBigInt] at h
  by_cases hchk : checkInteger bs = true
  · rw [hchk, if_pos rfl] at h
    cases bs with
    | nil => exact absurd hchk (by decide)
    | cons b t =>
      obtain ⟨hb, hvt⟩ := validBytes_cons hv
      rw [List.headD_cons] at h
      by_cases hneg : 128 ≤ b
      · -- negative value
        rw [if_pos hneg] at h
        have hval : v = -(((bytesToNat (notBytes (b :: t))) : Int) + 1) :=
          (Option.some_inj.mp h).symm
        have hvneg : v < 0 := by
          have : (0 : Int) ≤ (bytesToNat (notBytes (b :: t)) : Int) := Int.ofNat_nonneg _
          omega
        have hm : (-v - 1).toNat = bytesToNat (notBytes (b :: t)) := by omega
        rw [intDERBytes, if_pos hvneg, hm]
        have hnb : notBytes (b :: t) = (255 - b) :: notBytes t := rfl
        by_cases hb255 : b = 255
        · -- leading byte 0xff: the complement starts with a zero byte
          subst hb255
          cases t with
          | nil => decide
          | cons c t2 =>
            have hc128 : c < 128 := by
              rw [checkInteger] at hchk
              simp at hchk
              omega
            have hnb2 : notBytes (255 :: c :: t2) = 0 :: (255 - c) :: notBytes t2 := rfl
            rw [hnb2, bytesToNat_zero_cons]
            have hvt2 : ValidBytes ((255 - c) :: notBytes t2) := by
              have h1 := notBytes_valid (c :: t2)
              exact h1
            have hcanon : natToBytes (bytesToNat ((255 - c) :: notBytes t2))
                = (255 - c) :: notBytes t2 :=
              natToBytes_bytesToNat hvt2 (by omega)
            rw [hcanon]
            have hinv : notBytes ((255 - c) :: notBytes t2) = c :: t2 :=
              notBytes_notBytes hvt
            rw [hinv, List.headD_cons, if_neg (by omega)]
        · -- leading byte in [0x80, 0xfe]: the complement leads with a nonzero byte
          have hlead : 255 - b ≠ 0 := by omega
          rw [hnb]
          have hvnb : ValidBytes ((255 - b) :: notBytes t) := by
            rw [← hnb]; exact notBytes_valid _
          have hcanon : natToBytes (bytesToNat ((255 - b) :: notBytes t))
              = (255 - b) :: notBytes t :=
            natToBytes_bytesToNat hvnb hlead
          rw [hcanon]
          have hinv : notBytes ((255 - b) :: notBytes t) = b :: t := by
            have := notBytes_notBytes hv
            rw [hnb] at this
            exact this
          rw [hinv, List.headD_cons, if_pos hneg]
      · -- nonnegative value
        rw [if_neg hneg] at h
        have hval : v = (bytesToNat (b :: t) : Int) := (Option.some_inj.mp h).symm
        have hvnn : ¬ v < 0 := by
          have : (0 : Int) ≤ (bytesToNat (b :: t) : Int) := Int.ofNat_nonneg _
          omega
        by_cases hb0 : b = 0
        · subst hb0
          cases t with
          | nil =>
            have : v = 0 := by
              rw [hval]; rfl
            rw [this]; rfl
          | cons c t2 =>
            have hc128 : 128 ≤ c := by
              rw [checkInteger] at hchk
              simp at hchk
              omega
            have hvz : bytesToNat (0 :: c :: t2) = bytesToNat (c :: t2) :=
              bytesToNat_zero_cons _
            have hcpos : 0 < bytesToNat (c :: t2) := bytesToNat_pos t2 (by omega)
            have hvpos : v ≠ 0 := by
              rw [hval, hvz]
              omega
            rw [intDERBytes, if_neg hvnn, if_neg hvpos]
            have htn : v.toNat = bytesToNat (c :: t2) := by
              rw [hval, hvz]; omega
            rw [htn]
            have hcanon : natToBytes (bytesToNat (c :: t2)) = c :: t2 :=
              natToBytes_bytesToNat hvt (by omega)
            rw [hcanon, List.headD_cons, if_pos hc128]
        · have hpos : 0 < bytesToNat (b :: t) := bytesToNat_pos t hb0
          have hvpos : v ≠ 0 := by rw [hval]; omega
          rw [intDERBytes, if_neg hvnn, if_neg hvpos]
          have htn : v.toNat = bytesToNat (b :: t) := by rw [hval]; omega
          rw [htn]
          have hcanon : natToBytes (bytesToNat (b :: t)) = b :: t :=
            natToBytes_bytesToNat hv hb0
          rw [hcanon, List.headD_cons, if_neg hneg]
  · rw [if_neg hchk] at h
    exact absurd h (by simp)

/-- Modelled from the spec: DER definite-length encoding (short form below
128, otherwise long form with a minimal big-endian length). -/
def lenBytes (n : Nat) : List Nat :=
  if n < 128 then [n]
  else (128 + (natToBytes n).length) :: natToBytes n

/-- Modelled from the spec: DER definite-length decoding; rejects the
indefinite form, non-minimal long forms, and long forms below 128.  Returns
the length and the bytes following the length field. -/
def parseLen (bs : List Nat) : Option (Nat × List Nat) :=
  match bs with
  | [] => none
  | b :: rest =>
    if b < 128 then some (b, rest)
    else if b - 128 ≠ 0 ∧ (rest.take (b - 128)).length = b - 128 ∧
        (rest.take (b - 128)).headD 0 ≠ 0 ∧ 128 ≤ bytesToNat (rest.take (b - 128)) then
      some (bytesToNat (rest.take (b - 128)), rest.drop (b - 128))
    else none

theorem parseLen_nil : parseLen [] = none := rfl

theorem parseLen_cons (b : Nat) (rest : List Nat) :
    parseLen (b :: rest) =
      if b < 128 then some (b, rest)
      else if b - 128 ≠ 0 ∧ (rest.take (b - 128)).length = b - 128 ∧
          (rest.take (b - 128)).headD 0 ≠ 0 ∧ 128 ≤ bytesToNat (rest.take (b - 128)) then
        some (bytesToNat (rest.take (b - 128)), rest.drop (b - 128))
      else none := rfl

theorem parseLen_lenBytes (n : Nat) (rest : List Nat) :
    parseLen (lenBytes n ++ rest) = some (n, rest) := by
  rw [lenBytes]
  by_cases h : n < 128
  · rw [if_pos h, List.singleton_append, parseLen_cons, if_pos h]
  · rw [if_neg h]
    obtain ⟨b, t, hbt, hb0, hblt⟩ := natToBytes_shape (show n ≠ 0 by omega)
    rw [List.cons_append, parseLen_cons]
    have hnum : 128 + (natToBytes n).length - 128 = (natToBytes n).length := by omega
    rw [if_neg (by omega), hnum]
    have htake : (natToBytes n ++ rest).take (natToBytes n).length = natToBytes n :=
      List.take_left _ _
    have hdrop : (natToBytes n ++ rest).drop (natToBytes n).length = rest :=
      List.drop_left _ _
    rw [htake, hdrop]
    have hlen0 : (natToBytes n).length ≠ 0 := by rw [hbt]; simp
    have hhead : (natToBytes n).headD 0 ≠ 0 := by rw [hbt]; simpa using hb0
    have hval : bytesToNat (natToBytes n) = n := bytesToNat_natToBytes n
    rw [if_pos ⟨hlen0, rfl, hhead, by omega⟩, hval]

theorem parseLen_canon {bs : List Nat} (hv : ValidBytes bs) {n : Nat} {r : List Nat}
    (h : parseLen bs = some (n, r)) : bs = lenBytes n ++ r := by
  cases bs with
  | nil => rw [parseLen_nil] at h; exact absurd h (by simp)
  | cons b rest =>
    obtain ⟨hb, hvr⟩ := validBytes_cons hv
    rw [parseLen_cons] at h
    by_cases hshort : b < 128
    · rw [if_pos hshort] at h
      have h1 := Option.some_inj.mp h
      have hbn : b = n := congrArg Prod.fst h1
      have hrr : rest = r := congrArg Prod.snd h1
      subst hbn; subst hrr
      rw [lenBytes, if_pos hshort, List.singleton_append]
    · rw [if_neg hshort] at h
      by_cases hcond : b - 128 ≠ 0 ∧ (rest.take (b - 128)).length = b - 128 ∧
          (rest.take (b - 128)).headD 0 ≠ 0 ∧ 128 ≤ bytesToNat (rest.take (b - 128))
      · rw [if_pos hcond] at h
        obtain ⟨hnum0, hlen, hhead, hge⟩ := hcond
        injection h with h1
        injection h1 with hval hdrop
        cases htk : rest.take (b - 128) with
        | nil => rw [htk] at hlen; simp at hlen; omega
        | cons c t =>
          have hvtk : ValidBytes (c :: t) := by
            rw [← htk]; exact validBytes_take hvr _
          have hc0 : c ≠ 0 := by
            rw [htk] at hhead; simpa using hhead
          have hcanon : natToBytes n = c :: t := by
            rw [← hval, htk, natToBytes_bytesToNat hvtk hc0]
          rw [htk] at hval hge
          rw [lenBytes, if_neg (by omega), hcanon]
          have hlen2 : (c :: t).length = b - 128 := by rw [← htk]; exact hlen
          have hb128 : 128 + (c :: t).length = b := by omega
          rw [hb128, List.cons_append]
          congr 1
          rw [← htk, ← hdrop, List.take_append_drop]
      · rw [if_neg hcond] at h
        exact absurd h (by simp)

/-- Modelled from the spec: one DER field — tag byte, definite length,
content bytes. -/
def derField (tag : Nat) (content : List Nat) : List Nat :=
  tag :: lenBytes content.length ++ content

/-- Modelled from the spec: decoding of one INTEGER field (tag `0x02`) of the
signature sequence; returns the decoded value and the remaining bytes. -/
def parseIntField (bs : List Nat) : Option (Int × List Nat) :=
  match bs with
  | [] => none
  | b :: rest =>
    if b = 2 then
      (parseLen rest).bind (fun p =>
        if (p.2.take p.1).length = p.1 then
          (parseBigInt (p.2.take p.1)).map (fun v => (v, p.2.drop p.1))
        else none)
    else none

theorem parseIntField_nil : parseIntField [] = none := rfl

theorem parseIntField_cons (b : Nat) (rest : List Nat) :
    parseIntField (b :: rest) =
      if b = 2 then
        (parseLen rest).bind (fun p =>
          if (p.2.take p.1).length = p.1 then
            (parseBigInt (p.2.take p.1)).map (fun v => (v, p.2.drop p.1))
          else none)
      else none := rfl

theorem parseIntField_encode (v : Int) (rest : List Nat) :
    parseIntField (derField 2 (intDERBytes v) ++ rest) = some (v, rest) := by
  have hshape : derField 2 (intDERBytes v) ++ rest
      = 2 :: (lenBytes (intDERBytes v).length ++ (intDERBytes v ++ rest)) := by
    rw [derField]
    simp [List.append_assoc]
  rw [hshape, parseIntField_cons, if_pos rfl, parseLen_lenBytes, Option.some_bind]
  simp only
  have htake : (intDERBytes v ++ rest).take (intDERBytes v).length = intDERBytes v :=
    List.take_left _ _
  have hdrop : (intDERBytes v ++ rest).drop (intDERBytes v).length = rest :=
    List.drop_left _ _
  rw [htake, hdrop, if_pos rfl, parseBigInt_intDERBytes, Option.map_some']

theorem parseIntField_canon {bs : List Nat} (hv : ValidBytes bs) {v : Int}
    {rest : List Nat} (h : parseIntField bs = some (v, rest)) :
    bs = derField 2 (intDERBytes v) ++ rest := by
  cases bs with
  | nil => rw [parseIntField_nil] at h; exact absurd h (by simp)
  | cons b r1 =>
    have hvr1 : ValidBytes r1 := (validBytes_cons hv).2
    rw [parseIntField_cons] at h
    by_cases hb2 : b = 2
    · rw [if_pos hb2] at h
      subst hb2
      cases hpl : parseLen r1 with
      | none => rw [hpl, Option.none_bind] at h; exact absurd h (by simp)
      | some p =>
        obtain ⟨len, r2⟩ := p
        rw [hpl, Option.some_bind] at h
        simp only at h
        have hr1 : r1 = lenBytes len ++ r2 := parseLen_canon hvr1 hpl
        have hvr2 : ValidBytes r2 := by
          rw [hr1] at hvr1
          intro x hx; exact hvr1 x (List.mem_append_right _ hx)
        by_cases hlen : (r2.take len).length = len
        · rw [if_pos hlen] at h
          cases hpb : parseBigInt (r2.take len) with
          | none => rw [hpb, Option.map_none'] at h; exact absurd h (by simp)
          | some w =>
            rw [hpb, Option.map_some'] at h
            have h1 := Option.some_inj.mp h
            have hwv : w = v := congrArg Prod.fst h1
            have hdr : r2.drop len = rest := congrArg Prod.snd h1
            subst hwv
            have hcont : intDERBytes w = r2.take len :=
              intDERBytes_parseBigInt (validBytes_take hvr2 _) hpb
            have hlen2 : (intDERBytes w).length = len := by rw [hcont]; exact hlen
            have hshape : derField 2 (intDERBytes w) ++ rest
                = 2 :: (lenBytes (intDERBytes w).length ++ (intDERBytes w ++ rest)) := by
              rw [derField]
              simp [List.append_assoc]
            rw [hshape, hlen2, hcont, ← hdr, List.take_append_drop, ← hr1]
        · rw [if_neg hlen] at h
          exact absurd h (by simp)
    · rw [if_neg hb2] at h
      exact absurd h (by simp)

/-- Modelled from the spec: DER encoding of the two-field INTEGER sequence
(R, S) — the byte form the ASN.1 codec produces for the signature pair. -/
def marshalSigBytes (r s : Int) : List Nat :=
  derField 48 (derField 2 (intDERBytes r) ++ derField 2 (intDERBytes s))

/-- Modelled from the spec: DER decoding of the two-field INTEGER sequence;
returns the integer pair and the trailing bytes after the sequence (the
rest result of the ASN.1 codec). -/
def unmarshalSig (bs : List Nat) : Option ((Int × Int) × List Nat) :=
  match bs with
  | [] => none
  | b :: rest =>
    if b = 48 then
      (parseLen rest).bind (fun p =>
        if (p.2.take p.1).length = p.1 then
          (parseIntField (p.2.take p.1)).bind (fun q =>
            (parseIntField q.2).bind (fun w =>
              if w.2 = [] then some ((q.1, w.1), p.2.drop p.1) else none))
        else none)
    else none

theorem unmarshalSig_nil : unmarshalSig [] = none := rfl

theorem unmarshalSig_cons (b : Nat) (rest : List Nat) :
    unmarshalSig (b :: rest) =
      if b = 48 then
        (parseLen rest).bind (fun p =>
          if (p.2.take p.1).length = p.1 then
            (parseIntField (p.2.take p.1)).bind (fun q =>
              (parseIntField q.2).bind (fun w =>
                if w.2 = [] then some ((q.1, w.1), p.2.drop p.1) else none))
          else none)
      else none := rfl

theorem unmarshalSig_marshalSigBytes (r s : Int) (rest : List Nat) :
    unmarshalSig (marshalSigBytes r s ++ rest) = some ((r, s), rest) := by
  set inner := derField 2 (intDERBytes r) ++ derField 2 (intDERBytes s) with hinner
  have hshape : marshalSigBytes r s ++ rest
      = 48 :: (lenBytes inner.length ++ (inner ++ rest)) := by
    rw [marshalSigBytes, derField, ← hinner]
    simp [List.append_assoc]
  rw [hshape, unmarshalSig_cons, if_pos rfl, parseLen_lenBytes, Option.some_bind]
  simp only
  have htake : (inner ++ rest).take inner.length = inner := List.take_left _ _
  have hdrop : (inner ++ rest).drop inner.length = rest := List.drop_left _ _
  rw [htake, hdrop, if_pos rfl, hinner, parseIntField_encode, Option.some_bind]
  simp only
  rw [← List.append_nil (derField 2 (intDERBytes s)), parseIntField_encode,
    Option.some_bind]
  simp

theorem marshalSigBytes_unmarshalSig {bs : List Nat} (hv : ValidBytes bs)
    {r s : Int} {rest : List Nat} (h : unmarshalSig bs = some ((r, s), rest)) :
    bs = marshalSigBytes r s ++ rest := by
  cases bs with
  | nil => rw [unmarshalSig_nil] at h; exact absurd h (by simp)
  | cons b r1 =>
    have hvr1 : ValidBytes r1 := (validBytes_cons hv).2
    rw [unmarshalSig_cons] at h
    by_cases hb48 : b = 48
    · rw [if_pos hb48] at h
      subst hb48
      cases hpl : parseLen r1 with
      | none => rw [hpl, Option.none_bind] at h; exact absurd h (by simp)
      | some p =>
        obtain ⟨len, r2⟩ := p
        rw [hpl, Option.some_bind] at h
        simp only at h
        have hr1 : r1 = lenBytes len ++ r2 := parseLen_canon hvr1 hpl
        have hvr2 : ValidBytes r2 := by
          rw [hr1] at hvr1
          intro x hx; exact hvr1 x (List.mem_append_right _ hx)
        by_cases hlen : (r2.take len).length = len
        · rw [if_pos hlen] at h
          have hvin : ValidBytes (r2.take len) := validBytes_take hvr2 _
          cases hq : parseIntField (r2.take len) with
          | none => rw [hq, Option.none_bind] at h; exact absurd h (by simp)
          | some q =>
            obtain ⟨q1, q2⟩ := q
            rw [hq, Option.some_bind] at h
            simp only at h
            have hfst : r2.take len = derField 2 (intDERBytes q1) ++ q2 :=
              parseIntField_canon hvin hq
            have hvq2 : ValidBytes q2 := by
              rw [hfst] at hvin
              intro x hx; exact hvin x (List.mem_append_right _ hx)
            cases hw : parseIntField q2 with
            | none => rw [hw, Option.none_bind] at h; exact absurd h (by simp)
            | some w =>
              obtain ⟨w1, w2⟩ := w
              rw [hw, Option.some_bind] at h
              simp only at h
              by_cases hw2 : w2 = []
              · rw [if_pos hw2] at h
                subst hw2
                injection h with h1
                injection h1 with hpair hrest
                injection hpair with hq1r hw1s
                rw [← hq1r, ← hw1s]
                have hsnd : q2 = derField 2 (intDERBytes w1) ++ [] :=
                  parseIntField_canon hvq2 hw
                rw [List.append_nil] at hsnd
                have hinner : r2.take len = derField 2 (intDERBytes q1) ++
                    derField 2 (intDERBytes w1) := by
                  rw [hfst, hsnd]
                have hlen2 : (derField 2 (intDERBytes q1) ++
                    derField 2 (intDERBytes w1)).length = len := by
                  rw [← hinner]; exact hlen
                have hshape : marshalSigBytes q1 w1 ++ rest
                    = 48 :: (lenBytes (derField 2 (intDERBytes q1) ++
                        derField 2 (intDERBytes w1)).length ++
                      ((derField 2 (intDERBytes q1) ++ derField 2 (intDERBytes w1))
                        ++ rest)) := by
                  rw [marshalSigBytes, derField]
                  simp [List.append_assoc]
                rw [hshape, hlen2, ← hinner, ← hrest, List.take_append_drop, ← hr1]
              · rw [if_neg hw2] at h
                exact absurd h (by simp)
        · rw [if_neg hlen] at h
          exact absurd h (by simp)
    · rw [if_neg hb48] at h
      exact absurd h (by simp)

end Der

/-! ## The `openssl` package model (from `src/openssl/ecdsa.go`) -/

namespace OpensslEC

open Der

/-- Go error values as this module produces them:
`goErr` models `errors.New` sentinels, `openssl` models `newOpenSSLError`
(an engine failure wrapping a diagnostic string — modelled from the spec,
the helper lives outside `src/`), `asn1Err` models errors of the external
ASN.1 codec, and `runtimePanic` marks a Go runtime panic exit
(out-of-range slice indexing). -/
inductive GoError
  | goErr (msg : String)
  | openssl (msg : String)
  | asn1Err (msg : String)
  | runtimePanic
deriving DecidableEq, Repr

/-- `errors.New("openssl: unknown elliptic curve")` (ecdsa.go line 39). -/
def errUnknownCurve : GoError := .goErr "openssl: unknown elliptic curve"

/-- `errors.New("openssl: unsupported elliptic curve")` (ecdsa.go line 40). -/
def errUnsupportedCurve : GoError := .goErr "openssl: unsupported elliptic curve"

/-- Modelled from the spec: `newOpenSSLError` wraps an engine diagnostic
string into an EngineError. -/
def newOpenSSLError (msg : String) : GoError := .openssl msg

/-- The error the external ASN.1 codec reports when `asn1.Unmarshal` fails;
only its category (codec, not engine) matters to this module. -/
def asn1UnmarshalError : GoError := .asn1Err "asn1: syntax error"

/-- Native allocation and release events, recorded in order of occurrence.
`EC_KEY_get0_*` accessors return borrowed references and produce no event. -/
inductive Event
  | allocKey (h : Nat)
  | freeKey (h : Nat)
  | allocPoint (h : Nat)
  | freePoint (h : Nat)
  | allocBN (h : Nat)
  | freeBN (h : Nat)
deriving DecidableEq, Repr

/-- The native engine as an oracle: each field gives the outcome of the
corresponding native call.  Handles are `Nat`; `none` models a NULL return,
`false`/`0` a zero status.  `bigToBN`/`bnToBig` model the numeric bridge
(modelled from the spec, the helpers live outside `src/`). -/
structure ECEngine where
  keyNewByCurveName : Int → Option Nat
  get0Group : Nat → Nat
  pointNew : Nat → Option Nat
  bigToBN : Int → Option Nat
  setAffine : Nat → Nat → Nat → Nat → Bool
  setPublicKey : Nat → Nat → Bool
  setPrivateKey : Nat → Nat → Bool
  generateKey : Nat → Bool
  get0PublicKey : Nat → Option Nat
  get0PrivateKey : Nat → Option Nat
  bnNew : Nat → Option Nat
  getAffine : Nat → Nat → Nat → Nat → Bool
  bnToBig : Nat → Int
  ecdsaSize : Nat → Nat
  signStatus : List Nat → Nat → Int
  signLen : List Nat → Nat → Nat
  signWrite : List Nat → Nat → Nat → Nat
  ecdsaVerify : List Nat → List Nat → Nat → Int

/-- `curveNID` (ecdsa.go lines 42–54): the four supported names map to the
engine curve identifiers, everything else is `errUnknownCurve`.  The NID
values are the native engine header constants. -/
def NID_secp224r1 : Int := 713
def NID_X9_62_prime256v1 : Int := 415
def NID_secp384r1 : Int := 715
def NID_secp521r1 : Int := 716

def curveNID (curve : String) : Except GoError Int :=
  if curve = "P-224" then .ok NID_secp224r1
  else if curve = "P-256" then .ok NID_X9_62_prime256v1
  else if curve = "P-384" then .ok NID_secp384r1
  else if curve = "P-521" then .ok NID_secp521r1
  else .error errUnknownCurve

/-- The allocation event `bigToBN` or `BN_new` produces when it succeeds. -/
def bnEvsA : Option Nat → List Event
  | some a => [.allocBN a]
  | none => []

/-- The matching conditional release of lines 89–94: a successfully
converted bignum is freed. -/
def bnEvsF : Option Nat → List Event
  | some a => [.freeBN a]
  | none => []

/-- The combined status of lines 87–88: both conversions succeeded, the
affine coordinates were set and the public key was set (short-circuit `&&`;
the setters report no events). -/
def pubOk (E : ECEngine) (key pt : Nat) (X Y : Int) : Bool :=
  match E.bigToBN X, E.bigToBN Y with
  | some a, some b => E.setAffine (E.get0Group key) pt a b && E.setPublicKey key pt
  | _, _ => false

/-- The alloc/free trace of lines 85–95: convert X and Y, free both bignums
when present, free the point. -/
def newECKeyEvs (E : ECEngine) (key pt : Nat) (X Y : Int) : List Event :=
  [.allocKey key, .allocPoint pt]
    ++ bnEvsA (E.bigToBN X) ++ bnEvsA (E.bigToBN Y)
    ++ bnEvsF (E.bigToBN X) ++ bnEvsF (E.bigToBN Y)
    ++ [.freePoint pt]

/-- `newECKey` (ecdsa.go lines 70–101): allocate a key for the curve,
allocate a point, convert X and Y to bignums, set the affine coordinates and
the public key, free the bignums and the point, and free the key when the
combined status `ok` is false.  Returns the result together with the native
alloc/free trace. -/
def newECKey (E : ECEngine) (curve : String) (X Y : Int) :
    Except GoError Nat × List Event :=
  match curveNID curve with
  | .error e => (.error e, [])
  | .ok nid =>
    match E.keyNewByCurveName nid with
    | none => (.error (newOpenSSLError "EC_KEY_new_by_curve_name failed"), [])
    | some key =>
      match E.pointNew (E.get0Group key) with
      | none => (.error (newOpenSSLError "EC_POINT_new failed"),
          [.allocKey key, .freeKey key])
      | some pt =>
        if pubOk E key pt X Y then (.ok key, newECKeyEvs E key pt X Y)
        else (.error (newOpenSSLError "EC_POINT_free failed"),
          newECKeyEvs E key pt X Y ++ [.freeKey key])

/-- `NewPublicKeyECDSA` (ecdsa.go lines 56–68): wraps the handle built by
`newECKey`; the finalizer registration itself allocates nothing. -/
def NewPublicKeyECDSA (E : ECEngine) (curve : String) (X Y : Int) :
    Except GoError Nat × List Event :=
  newECKey E curve X Y

/-- The combined status of line 109: D converted and the private scalar
set. -/
def privOk (E : ECEngine) (key : Nat) (D : Int) : Bool :=
  match E.bigToBN D with
  | some d => E.setPrivateKey key d
  | none => false

/-- `NewPrivateKeyECDSA` (ecdsa.go lines 103–124): builds the public part via
`newECKey`, converts D, sets the private scalar, frees the bignum, and frees
the key on failure. -/
def NewPrivateKeyECDSA (E : ECEngine) (curve : String) (X Y D : Int) :
    Except GoError Nat × List Event :=
  match newECKey E curve X Y with
  | (.error e, evs) => (.error e, evs)
  | (.ok key, evs) =>
    if privOk E key D then
      (.ok key, evs ++ bnEvsA (E.bigToBN D) ++ bnEvsF (E.bigToBN D))
    else
      (.error (newOpenSSLError "EC_KEY_set_private_key failed"),
        evs ++ bnEvsA (E.bigToBN D) ++ bnEvsF (E.bigToBN D) ++ [.freeKey key])

/-- `SignMarshalECDSA` (ecdsa.go lines 142–151): ask `ECDSA_size` for the
maximum size, allocate a buffer of exactly that size, call `ECDSA_sign`, and
truncate to the written length.  `&sig[0]` on an empty buffer and
`sig[:sigLen]` with `sigLen` beyond the buffer are Go runtime panics. -/
def SignMarshalECDSA (E : ECEngine) (key : Nat) (hash : List Nat) :
    Except GoError (List Nat) :=
  if E.ecdsaSize key = 0 then .error .runtimePanic
  else if E.signStatus hash key = 0 then
    .error (newOpenSSLError "ECDSA_sign failed")
  else if E.signLen hash key ≤ E.ecdsaSize key then
    .ok (((List.range (E.ecdsaSize key)).map (E.signWrite hash key)).take
      (E.signLen hash key))
  else .error .runtimePanic

/-- `ecdsaSignature` marshalling as `VerifyECDSA` uses it: a `nil` component
(`none`) cannot be encoded and yields a codec error; any integer pair is
encoded to `marshalSigBytes`. -/
def marshalSig : Option Int → Option Int → Except GoError (List Nat)
  | some r, some s => .ok (marshalSigBytes r s)
  | _, _ => .error (.asn1Err "asn1: empty integer")

/-- `SignECDSA` (ecdsa.go lines 126–140): sign to DER, then decode the pair;
decode failure surfaces the codec error. -/
def SignECDSA (E : ECEngine) (key : Nat) (hash : List Nat) :
    Except GoError (Int × Int) :=
  match SignMarshalECDSA E key hash with
  | .error e => .error e
  | .ok sig =>
    match unmarshalSig sig with
    | none => .error asn1UnmarshalError
    | some (rs, _rest) => .ok rs

/-- `VerifyECDSA` (ecdsa.go lines 153–164): encode (r, s); on encoding
failure return `false`, otherwise return whether `ECDSA_verify` is
positive. -/
def VerifyECDSA (E : ECEngine) (key : Nat) (hash : List Nat)
    (r s : Option Int) : Bool :=
  match marshalSig r s with
  | .error _ => false
  | .ok sig => decide (0 < E.ecdsaVerify hash sig key)

/-- `GenerateKeyECDSA` (ecdsa.go lines 166–199): resolve the curve, allocate
a key (freed by `defer` on every later exit), generate, fetch the borrowed
group/point/scalar, allocate two bignums (each freed by `defer`), read the
affine coordinates, and convert the three numerics.  Deferred releases run
last-in first-out. -/
def GenerateKeyECDSA (E : ECEngine) (curve : String) :
    Except GoError (Int × Int × Int) × List Event :=
  match curveNID curve with
  | .error e => (.error e, [])
  | .ok nid =>
    match E.keyNewByCurveName nid with
    | none => (.error (newOpenSSLError "EC_KEY_new_by_curve_name failed"), [])
    | some key =>
      if ¬ E.generateKey key then
        (.error (newOpenSSLError "EC_KEY_generate_key failed"),
          [.allocKey key, .freeKey key])
      else
        match E.get0PublicKey key, E.get0PrivateKey key with
        | some pt, some bd =>
          (match E.bnNew 0 with
          | none => (.error (newOpenSSLError "BN_new failed"),
              [.allocKey key, .freeKey key])
          | some bx =>
            match E.bnNew 1 with
            | none => (.error (newOpenSSLError "BN_new failed"),
                [.allocKey key, .allocBN bx, .freeBN bx, .freeKey key])
            | some bY =>
              if E.getAffine (E.get0Group key) pt bx bY then
                (.ok (E.bnToBig bx, E.bnToBig bY, E.bnToBig bd),
                  [.allocKey key, .allocBN bx, .allocBN bY,
                    .freeBN bY, .freeBN bx, .freeKey key])
              else
                (.error (newOpenSSLError "EC_POINT_get_affine_coordinates_GFp failed"),
                  [.allocKey key, .allocBN bx, .allocBN bY,
                    .freeBN bY, .freeBN bx, .freeKey key]))
        | _, _ =>
          (.error (newOpenSSLError "EC_KEY_get0_private_key failed"),
            [.allocKey key, .freeKey key])

/-- Every bignum and point allocation in the trace has a matching release. -/
def bnPointBalanced (tr : List Event) : Prop :=
  ∀ h : Nat, tr.count (.freeBN h) = tr.count (.allocBN h) ∧
    tr.count (.freePoint h) = tr.count (.allocPoint h)

/-- Every key allocation in the trace has a matching release. -/
def keyBalanced (tr : List Event) : Prop :=
  ∀ h : Nat, tr.count (.freeKey h) = tr.count (.allocKey h)

/-- The trace allocates the handle `k` exactly once and never releases it:
`k` is handed to the caller alive. -/
def keyRetained (tr : List Event) (k : Nat) : Prop :=
  tr.count (.allocKey k) = 1 ∧ tr.count (.freeKey k) = 0

/-! ### Unfolding equations for the match-based definitions -/

theorem newECKey_curveErr {curve : String} {e : GoError}
    (h : curveNID curve = .error e) (E : ECEngine) (X Y : Int) :
    newECKey E curve X Y = (.error e, []) := by
  unfold newECKey; simp only [h]

theorem newECKey_keyNil {curve : String} {nid : Int} {E : ECEngine}
    (hn : curveNID curve = .ok nid) (hk : E.keyNewByCurveName nid = none)
    (X Y : Int) :
    newECKey E curve X Y
      = (.error (newOpenSSLError "EC_KEY_new_by_curve_name failed"), []) := by
  unfold newECKey; simp only [hn, hk]

theorem newECKey_ptNil {curve : String} {E : ECEngine}
    {n : Int} {k : Nat}
    (hn : curveNID curve = .ok n) (hk : E.keyNewByCurveName n = some k)
    (hp : E.pointNew (E.get0Group k) = none) (X Y : Int) :
    newECKey E curve X Y
      = (.error (newOpenSSLError "EC_POINT_new failed"),
          [.allocKey k, .freeKey k]) := by
  unfold newECKey; simp only [hn, hk, hp]

theorem newECKey_run {curve : String} {E : ECEngine} {n : Int} {k p : Nat}
    (hn : curveNID curve = .ok n) (hk : E.keyNewByCurveName n = some k)
    (hp : E.pointNew (E.get0Group k) = some p) (X Y : Int) :
    newECKey E curve X Y
      = if pubOk E k p X Y then (.ok k, newECKeyEvs E k p X Y)
        else (.error (newOpenSSLError "EC_POINT_free failed"),
          newECKeyEvs E k p X Y ++ [.freeKey k]) := by
  unfold newECKey; simp only [hn, hk, hp]

theorem NewPrivateKeyECDSA_err {E : ECEngine} {curve : String} {X Y : Int}
    {e : GoError} {evs : List Event}
    (h : newECKey E curve X Y = (.error e, evs)) (D : Int) :
    NewPrivateKeyECDSA E curve X Y D = (.error e, evs) := by
  unfold NewPrivateKeyECDSA; simp only [h]

theorem NewPrivateKeyECDSA_ok {E : ECEngine} {curve : String} {X Y : Int}
    {k : Nat} {evs : List Event}
    (h : newECKey E curve X Y = (.ok k, evs)) (D : Int) :
    NewPrivateKeyECDSA E curve X Y D
      = if privOk E k D then
          (.ok k, evs ++ bnEvsA (E.bigToBN D) ++ bnEvsF (E.bigToBN D))
        else
          (.error (newOpenSSLError "EC_KEY_set_private_key failed"),
            evs ++ bnEvsA (E.bigToBN D) ++ bnEvsF (E.bigToBN D) ++ [.freeKey k]) := by
  unfold NewPrivateKeyECDSA; simp only [h]

theorem GenerateKeyECDSA_curveErr {curve : String} {e : GoError}
    (h : curveNID curve = .error e) (E : ECEngine) :
    GenerateKeyECDSA E curve = (.error e, []) := by
  unfold GenerateKeyECDSA; simp only [h]

theorem GenerateKeyECDSA_keyNil {curve : String} {n : Int} {E : ECEngine}
    (hn : curveNID curve = .ok n) (hk : E.keyNewByCurveName n = none) :
    GenerateKeyECDSA E curve
      = (.error (newOpenSSLError "EC_KEY_new_by_curve_name failed"), []) := by
  unfold GenerateKeyECDSA; simp only [hn, hk]

theorem GenerateKeyECDSA_genFail {curve : String} {n : Int} {k : Nat}
    {E : ECEngine}
    (hn : curveNID curve = .ok n) (hk : E.keyNewByCurveName n = some k)
    (hg : E.generateKey k = false) :
    GenerateKeyECDSA E curve
      = (.error (newOpenSSLError "EC_KEY_generate_key failed"),
          [.allocKey k, .freeKey k]) := by
  unfold GenerateKeyECDSA
  simp only [hn, hk, hg]
  simp

theorem GenerateKeyECDSA_getNil {curve : String} {n : Int} {k : Nat}
    {E : ECEngine}
    (hn : curveNID curve = .ok n) (hk : E.keyNewByCurveName n = some k)
    (hg : E.generateKey k = true)
    (h0 : E.get0PublicKey k = none ∨ E.get0PrivateKey k = none) :
    GenerateKeyECDSA E curve
      = (.error (newOpenSSLError "EC_KEY_get0_private_key failed"),
          [.allocKey k, .freeKey k]) := by
  unfold GenerateKeyECDSA
  simp only [hn, hk, hg]
  rw [if_neg (by simp)]
  rcases h0 with h0 | h0
  · simp only [h0]
  · cases hpt : E.get0PublicKey k with
    | none => simp only [hpt]
    | some pt => simp only [hpt, h0]

theorem GenerateKeyECDSA_bnNil0 {curve : String} {n : Int} {k pt bd : Nat}
    {E : ECEngine}
    (hn : curveNID curve = .ok n) (hk : E.keyNewByCurveName n = some k)
    (hg : E.generateKey k = true)
    (hpt : E.get0PublicKey k = some pt) (hbd : E.get0PrivateKey k = some bd)
    (hbx : E.bnNew 0 = none) :
    GenerateKeyECDSA E curve
      = (.error (newOpenSSLError "BN_new failed"), [.allocKey k, .freeKey k]) := by
  unfold GenerateKeyECDSA
  simp only [hn, hk, hg, hpt, hbd, hbx]
  rw [if_neg (by simp)]

theorem GenerateKeyECDSA_bnNil1 {curve : String} {n : Int} {k pt bd bx : Nat}
    {E : ECEngine}
    (hn : curveNID curve = .ok n) (hk : E.keyNewByCurveName n = some k)
    (hg : E.generateKey k = true)
    (hpt : E.get0PublicKey k = some pt) (hbd : E.get0PrivateKey k = some bd)
    (hbx : E.bnNew 0 = some bx) (hby : E.bnNew 1 = none) :
    GenerateKeyECDSA E curve
      = (.error (newOpenSSLError "BN_new failed"),
          [.allocKey k, .allocBN bx, .freeBN bx, .freeKey k]) := by
  unfold GenerateKeyECDSA
  simp only [hn, hk, hg, hpt, hbd, hbx, hby]
  rw [if_neg (by simp)]

theorem GenerateKeyECDSA_run {curve : String} {n : Int} {k pt bd bx bY : Nat}
    {E : ECEngine}
    (hn : curveNID curve = .ok n) (hk : E.keyNewByCurveName n = some k)
    (hg : E.generateKey k = true)
    (hpt : E.get0PublicKey k = some pt) (hbd : E.get0PrivateKey k = some bd)
    (hbx : E.bnNew 0 = some bx) (hby : E.bnNew 1 = some bY) :
    GenerateKeyECDSA E curve
      = if E.getAffine (E.get0Group k) pt bx bY then
          (.ok (E.bnToBig bx, E.bnToBig bY, E.bnToBig bd),
            [.allocKey k, .allocBN bx, .allocBN bY,
              .freeBN bY, .freeBN bx, .freeKey k])
        else
          (.error (newOpenSSLError "EC_POINT_get_affine_coordinates_GFp failed"),
            [.allocKey k, .allocBN bx, .allocBN bY,
              .freeBN bY, .freeBN bx, .freeKey k]) := by
  unfold GenerateKeyECDSA
  simp only [hn, hk, hg, hpt, hbd, hbx, hby]
  rw [if_neg (by simp)]

/-! ### Trace balance lemmas -/

theorem newECKeyEvs_bnPointBalanced (E : ECEngine) (k p : Nat) (X Y : Int) :
    bnPointBalanced (newECKeyEvs E k p X Y) := by
  intro h
  unfold newECKeyEvs
  cases E.bigToBN X <;> cases E.bigToBN Y <;>
    simp [bnEvsA, bnEvsF, List.count_append, List.count_cons, List.count_nil]

theorem newECKeyEvs_keyCounts (E : ECEngine) (k p : Nat) (X Y : Int) (h : Nat) :
    (newECKeyEvs E k p X Y).count (.allocKey h) = (if h = k then 1 else 0) ∧
    (newECKeyEvs E k p X Y).count (.freeKey h) = 0 := by
  unfold newECKeyEvs
  by_cases hk : h = k
  · subst hk
    cases E.bigToBN X <;> cases E.bigToBN Y <;>
      simp [bnEvsA, bnEvsF, List.count_append, List.count_cons, List.count_nil]
  · cases E.bigToBN X <;> cases E.bigToBN Y <;>
      simp [bnEvsA, bnEvsF, List.count_append, List.count_cons, List.count_nil,
        hk, Ne.symm hk]

theorem bnEvs_append_bnPointBalanced {tr : List Event} (hb : bnPointBalanced tr)
    (o : Option Nat) : bnPointBalanced (tr ++ bnEvsA o ++ bnEvsF o) := by
  intro h
  obtain ⟨h1, h2⟩ := hb h
  cases o <;>
    simp [bnEvsA, bnEvsF, List.count_append, List.count_cons, List.count_nil,
      h1, h2]

/-! ### Concrete engines used to exercise the theorems -/

/-- A concrete engine on which every native call succeeds. -/
def engOK : ECEngine where
  keyNewByCurveName := fun _ => some 1
  get0Group := fun _ => 2
  pointNew := fun _ => some 3
  bigToBN := fun _ => some 4
  setAffine := fun _ _ _ _ => true
  setPublicKey := fun _ _ => true
  setPrivateKey := fun _ _ => true
  generateKey := fun _ => true
  get0PublicKey := fun _ => some 5
  get0PrivateKey := fun _ => some 6
  bnNew := fun i => some (7 + i)
  getAffine := fun _ _ _ _ => true
  bnToBig := fun h => (h : Int)
  ecdsaSize := fun _ => 8
  signStatus := fun _ _ => 1
  signLen := fun _ _ => 3
  signWrite := fun _ _ i => i
  ecdsaVerify := fun _ _ _ => 1

/-- Engine whose numeric bridge fails (`bigToBN` returns null). -/
def engNoBN : ECEngine := { engOK with bigToBN := fun _ => none }

/-- Engine whose `EC_KEY_get0_public_key` returns null. -/
def engNoPub : ECEngine := { engOK with get0PublicKey := fun _ => none }

/-- Engine whose `ECDSA_sign` reports failure. -/
def engSignFail : ECEngine := { engOK with signStatus := fun _ _ => 0 }

/-- Engine whose `ECDSA_sign` writes one byte that is not a DER sequence. -/
def engBadDER : ECEngine :=
  { engOK with signWrite := fun _ _ _ => 0, signLen := fun _ _ => 1 }

/-! ### Claim theorems -/

/-- C1: for every public key, hash and integer pair, `VerifyECDSA` returns a
plain boolean and never an error: if DER-encoding of (R, S) fails the result
is `false`, and otherwise the result is `true` exactly when the native
`ECDSA_verify` result is positive (zero and negative engine results,
including engine errors, give `false`). -/
theorem verifyECDSA_boolean_contract (E : ECEngine) (key : Nat)
    (hash : List Nat) (r s : Option Int) :
    (∀ e, marshalSig r s = .error e → VerifyECDSA E key hash r s = false) ∧
    (∀ sig, marshalSig r s = .ok sig →
      (VerifyECDSA E key hash r s = true ↔ 0 < E.ecdsaVerify hash sig key)) := by
  constructor
  · intro e he
    unfold VerifyECDSA
    simp only [he]
  · intro sig hs
    unfold VerifyECDSA
    simp only [hs, decide_eq_true_eq]

/-- Witness for C1 at concrete inputs. -/
theorem verifyECDSA_boolean_contract_w :
    VerifyECDSA engOK 1 [7] none (some 2) = false ∧
    (VerifyECDSA engOK 1 [7] (some 1) (some 2) = true ↔
      0 < engOK.ecdsaVerify [7] (Der.marshalSigBytes 1 2) 1) :=
  ⟨(verifyECDSA_boolean_contract engOK 1 [7] none (some 2)).1
      (GoError.asn1Err "asn1: empty integer") rfl,
   (verifyECDSA_boolean_contract engOK 1 [7] (some 1) (some 2)).2
      (Der.marshalSigBytes 1 2) rfl⟩

/-- C2: curve resolution succeeds exactly for "P-224", "P-256", "P-384" and
"P-521", yielding the engine curve identifiers, and every other string fails
with `errUnknownCurve`, before any native allocation (the callers produce an
empty native trace in that case). -/
theorem curveNID_exact :
    curveNID "P-224" = .ok NID_secp224r1 ∧
    curveNID "P-256" = .ok NID_X9_62_prime256v1 ∧
    curveNID "P-384" = .ok NID_secp384r1 ∧
    curveNID "P-521" = .ok NID_secp521r1 ∧
    (∀ c : String, c ≠ "P-224" → c ≠ "P-256" → c ≠ "P-384" → c ≠ "P-521" →
      curveNID c = .error errUnknownCurve ∧
      (∀ (E : ECEngine) (X Y : Int),
        newECKey E c X Y = (.error errUnknownCurve, [])) ∧
      (∀ E : ECEngine, GenerateKeyECDSA E c = (.error errUnknownCurve, []))) := by
  refine ⟨rfl, rfl, rfl, rfl, ?_⟩
  intro c h1 h2 h3 h4
  have hc : curveNID c = .error errUnknownCurve := by
    unfold curveNID
    rw [if_neg h1, if_neg h2, if_neg h3, if_neg h4]
  exact ⟨hc, fun E X Y => newECKey_curveErr hc E X Y,
    fun E => GenerateKeyECDSA_curveErr hc E⟩

/-- Witness for C2 at a concrete unsupported curve name. -/
theorem curveNID_exact_w :
    curveNID "P-999" = .error errUnknownCurve ∧
    newECKey engOK "P-999" 1 2 = (.error errUnknownCurve, []) ∧
    GenerateKeyECDSA engOK "P-999" = (.error errUnknownCurve, []) := by
  obtain ⟨-, -, -, -, h⟩ := curveNID_exact
  obtain ⟨hc, hn, hg⟩ := h "P-999" (by decide) (by decide) (by decide) (by decide)
  exact ⟨hc, hn engOK 1 2, hg engOK⟩

/-- C5: on success `SignMarshalECDSA` returns the engine-written buffer of
`ECDSA_size` bytes truncated to the signature length actually written, so
the result is never longer than the reported maximum size. -/
theorem signMarshalECDSA_size_contract (E : ECEngine) (key : Nat)
    (hash : List Nat) (out : List Nat)
    (h : SignMarshalECDSA E key hash = .ok out) :
    E.signStatus hash key ≠ 0 ∧
    out = ((List.range (E.ecdsaSize key)).map (E.signWrite hash key)).take
      (E.signLen hash key) ∧
    out.length = E.signLen hash key ∧
    out.length ≤ E.ecdsaSize key := by
  unfold SignMarshalECDSA at h
  by_cases h0 : E.ecdsaSize key = 0
  · rw [if_pos h0] at h; exact absurd h (by simp)
  · rw [if_neg h0] at h
    by_cases hst : E.signStatus hash key = 0
    · rw [if_pos hst] at h; exact absurd h (by simp)
    · rw [if_neg hst] at h
      by_cases hlen : E.signLen hash key ≤ E.ecdsaSize key
      · rw [if_pos hlen] at h
        injection h with h1
        refine ⟨hst, h1.symm, ?_, ?_⟩
        · rw [← h1, List.length_take, List.length_map, List.length_range]
          omega
        · rw [← h1, List.length_take, List.length_map, List.length_range]
          omega
      · rw [if_neg hlen] at h; exact absurd h (by simp)

/-- Witness for C5 on a concrete engine (size 8, written length 3). -/
theorem signMarshalECDSA_size_contract_w :
    engOK.signStatus [7] 1 ≠ 0 ∧
    ([0, 1, 2] : List Nat)
      = ((List.range (engOK.ecdsaSize 1)).map (engOK.signWrite [7] 1)).take
        (engOK.signLen [7] 1) ∧
    ([0, 1, 2] : List Nat).length = engOK.signLen [7] 1 ∧
    ([0, 1, 2] : List Nat).length ≤ engOK.ecdsaSize 1 :=
  signMarshalECDSA_size_contract engOK 1 [7] [0, 1, 2] rfl

/-- C6: `SignECDSA` surfaces a failure of the native sign primitive as the
engine error unchanged, and a failure of the DER decode as the distinct
codec error; in both cases the `Except` carries no integer pair. -/
theorem signECDSA_error_separation (E : ECEngine) (key : Nat)
    (hash : List Nat) :
    (∀ e, SignMarshalECDSA E key hash = .error e →
      SignECDSA E key hash = .error e) ∧
    (∀ sig, SignMarshalECDSA E key hash = .ok sig →
      Der.unmarshalSig sig = none →
      SignECDSA E key hash = .error asn1UnmarshalError) ∧
    (∀ m m2 : String, newOpenSSLError m ≠ GoError.asn1Err m2) := by
  refine ⟨?_, ?_, ?_⟩
  · intro e he
    unfold SignECDSA
    simp only [he]
  · intro sig hs hu
    unfold SignECDSA
    simp only [hs, hu]
  · intro m m2 h
    exact GoError.noConfusion h

/-- Witness for C6: an engine whose sign primitive fails, and one whose sign
output is not DER. -/
theorem signECDSA_error_separation_w :
    SignECDSA engSignFail 1 [7] = .error (newOpenSSLError "ECDSA_sign failed") ∧
    SignECDSA engBadDER 1 [7] = .error asn1UnmarshalError ∧
    newOpenSSLError "ECDSA_sign failed" ≠ GoError.asn1Err "asn1: syntax error" :=
  ⟨(signECDSA_error_separation engSignFail 1 [7]).1
      (newOpenSSLError "ECDSA_sign failed") rfl,
   (signECDSA_error_separation engBadDER 1 [7]).2.1 [0] rfl rfl,
   (signECDSA_error_separation engOK 1 [7]).2.2 "ECDSA_sign failed"
      "asn1: syntax error"⟩

/-- C9: a pair the ASN.1 codec cannot marshal — a nil R or a nil S — makes
`VerifyECDSA` return `false` rather than fail, while a negative R or S
marshals successfully and is passed to the native engine, which decides the
result. -/
theorem verifyECDSA_nil_and_negative (E : ECEngine) (key : Nat)
    (hash : List Nat) :
    (∀ s, VerifyECDSA E key hash none s = false) ∧
    (∀ r, VerifyECDSA E key hash r none = false) ∧
    (∀ r s : Int, marshalSig (some r) (some s) = .ok (Der.marshalSigBytes r s)) ∧
    (∀ r s : Int, r < 0 ∨ s < 0 →
      (VerifyECDSA E key hash (some r) (some s) = true ↔
        0 < E.ecdsaVerify hash (Der.marshalSigBytes r s) key)) := by
  refine ⟨?_, ?_, ?_, ?_⟩
  · intro s; cases s <;> rfl
  · intro r; cases r <;> rfl
  · intro r s; rfl
  · intro r s _
    show decide (0 < E.ecdsaVerify hash (Der.marshalSigBytes r s) key) = true ↔ _
    simp

/-- Witness for C9 with a nil component and a negative R. -/
theorem verifyECDSA_nil_and_negative_w :
    VerifyECDSA engOK 1 [7] none (some 2) = false ∧
    VerifyECDSA engOK 1 [7] (some 2) none = false ∧
    marshalSig (some (-1)) (some 2) = .ok (Der.marshalSigBytes (-1) 2) ∧
    (VerifyECDSA engOK 1 [7] (some (-1)) (some 2) = true ↔
      0 < engOK.ecdsaVerify [7] (Der.marshalSigBytes (-1) 2) 1) :=
  ⟨(verifyECDSA_nil_and_negative engOK 1 [7]).1 (some 2),
   (verifyECDSA_nil_and_negative engOK 1 [7]).2.1 (some 2),
   (verifyECDSA_nil_and_negative engOK 1 [7]).2.2.1 (-1) 2,
   (verifyECDSA_nil_and_negative engOK 1 [7]).2.2.2 (-1) 2 (Or.inl (by decide))⟩

/-- C10: the diagnostic string of the EngineError does not always name the
failing native call: in `newECKey` a failed X/Y conversion, a failed
affine-coordinate set, or a failed public-key set is reported as
"EC_POINT_free failed", and in `GenerateKeyECDSA` a null public point is
reported as "EC_KEY_get0_private_key failed". -/
theorem engineError_misnamed_diagnostics (curve : String) (n : Int) (k p : Nat)
    (E : ECEngine) (X Y : Int)
    (hn : curveNID curve = .ok n) (hk : E.keyNewByCurveName n = some k)
    (hp : E.pointNew (E.get0Group k) = some p) :
    ((E.bigToBN X = none ∨ E.bigToBN Y = none ∨
        (∃ a b, E.bigToBN X = some a ∧ E.bigToBN Y = some b ∧
          (E.setAffine (E.get0Group k) p a b = false ∨
            E.setPublicKey k p = false))) →
      (newECKey E curve X Y).1
        = .error (newOpenSSLError "EC_POINT_free failed")) ∧
    (E.generateKey k = true → E.get0PublicKey k = none →
      (GenerateKeyECDSA E curve).1
        = .error (newOpenSSLError "EC_KEY_get0_private_key failed")) := by
  constructor
  · intro hfail
    have hok : pubOk E k p X Y = false := by
      unfold pubOk
      rcases hfail with h0 | h0 | ⟨a, b, ha, hb, hab⟩
      · simp only [h0]
      · cases hX : E.bigToBN X <;> simp only [h0]
      · rcases hab with hab | hab <;> simp [ha, hb, hab]
    rw [newECKey_run hn hk hp, if_neg (by simp [hok])]
  · intro hg h0
    rw [GenerateKeyECDSA_getNil hn hk hg (Or.inl h0)]

/-- Witness for C10: a failing numeric bridge and a null public point. -/
theorem engineError_misnamed_diagnostics_w :
    (newECKey engNoBN "P-256" 1 2).1
      = .error (newOpenSSLError "EC_POINT_free failed") ∧
    (GenerateKeyECDSA engNoPub "P-256").1
      = .error (newOpenSSLError "EC_KEY_get0_private_key failed") :=
  ⟨(engineError_misnamed_diagnostics "P-256" NID_X9_62_prime256v1 1 3 engNoBN
      1 2 rfl rfl rfl).1 (Or.inl rfl),
   (engineError_misnamed_diagnostics "P-256" NID_X9_62_prime256v1 1 3 engNoPub
      1 2 rfl rfl rfl).2 rfl rfl⟩

theorem bnEvs_count_key (o : Option Nat) (h : Nat) :
    (bnEvsA o).count (.allocKey h) = 0 ∧ (bnEvsA o).count (.freeKey h) = 0 ∧
    (bnEvsF o).count (.allocKey h) = 0 ∧ (bnEvsF o).count (.freeKey h) = 0 := by
  cases o <;> simp [bnEvsA, bnEvsF]

theorem bnPointBalanced_append_freeKey {tr : List Event}
    (hb : bnPointBalanced tr) (k : Nat) :
    bnPointBalanced (tr ++ [.freeKey k]) := by
  intro h
  obtain ⟨h1, h2⟩ := hb h
  simp [List.count_append, h1, h2]

/-- Exhaustive shape analysis of `newECKey`. -/
theorem newECKey_cases (E : ECEngine) (curve : String) (X Y : Int) :
    (∃ e, newECKey E curve X Y = (.error e, [])) ∨
    (∃ k, newECKey E curve X Y
      = (.error (newOpenSSLError "EC_POINT_new failed"),
          [.allocKey k, .freeKey k])) ∨
    (∃ k p, pubOk E k p X Y = true ∧
      newECKey E curve X Y = (.ok k, newECKeyEvs E k p X Y)) ∨
    (∃ k p, newECKey E curve X Y
      = (.error (newOpenSSLError "EC_POINT_free failed"),
          newECKeyEvs E k p X Y ++ [.freeKey k])) := by
  cases hn : curveNID curve with
  | error e => exact Or.inl ⟨e, newECKey_curveErr hn E X Y⟩
  | ok nid =>
    cases hk : E.keyNewByCurveName nid with
    | none => exact Or.inl ⟨_, newECKey_keyNil hn hk X Y⟩
    | some k =>
      cases hp : E.pointNew (E.get0Group k) with
      | none => exact Or.inr (Or.inl ⟨k, newECKey_ptNil hn hk hp X Y⟩)
      | some p =>
        by_cases hok : pubOk E k p X Y
        · exact Or.inr (Or.inr (Or.inl ⟨k, p, hok,
            by rw [newECKey_run hn hk hp, if_pos hok]⟩))
        · exact Or.inr (Or.inr (Or.inr ⟨k, p,
            by rw [newECKey_run hn hk hp, if_neg hok]⟩))

theorem newECKey_bnPointBalanced (E : ECEngine) (curve : String) (X Y : Int) :
    bnPointBalanced (newECKey E curve X Y).2 := by
  rcases newECKey_cases E curve X Y with ⟨e, hh⟩ | ⟨k, hh⟩ | ⟨k, p, -, hh⟩
    | ⟨k, p, hh⟩ <;> rw [hh]
  · intro h; simp
  · intro h; simp
  · exact newECKeyEvs_bnPointBalanced E k p X Y
  · exact bnPointBalanced_append_freeKey (newECKeyEvs_bnPointBalanced E k p X Y) k

theorem newECKey_err_keyBalanced (E : ECEngine) (curve : String) (X Y : Int)
    (e : GoError) (he : (newECKey E curve X Y).1 = .error e) :
    keyBalanced (newECKey E curve X Y).2 := by
  rcases newECKey_cases E curve X Y with ⟨e2, hh⟩ | ⟨k, hh⟩ | ⟨k, p, -, hh⟩
    | ⟨k, p, hh⟩ <;> rw [hh]
  · intro h; simp
  · intro h
    by_cases hk : h = k <;> simp [hk]
  · rw [hh] at he; exact absurd he (by simp)
  · intro h
    obtain ⟨ha, hf⟩ := newECKeyEvs_keyCounts E k p X Y h
    by_cases hk : h = k
    · subst hk
      simp [List.count_append, ha, hf]
    · simp [List.count_append, ha, hf, hk]

theorem newECKey_ok_counts (E : ECEngine) (curve : String) (X Y : Int)
    (k : Nat) (hk : (newECKey E curve X Y).1 = .ok k) (h : Nat) :
    (newECKey E curve X Y).2.count (.allocKey h) = (if h = k then 1 else 0) ∧
    (newECKey E curve X Y).2.count (.freeKey h) = 0 := by
  rcases newECKey_cases E curve X Y with ⟨e2, hh⟩ | ⟨k2, hh⟩ | ⟨k2, p, -, hh⟩
    | ⟨k2, p, hh⟩ <;> rw [hh] <;> rw [hh] at hk
  · exact absurd hk (by simp)
  · exact absurd hk (by simp)
  · have hkk : k2 = k := by simpa using hk
    subst hkk
    exact newECKeyEvs_keyCounts E k2 p X Y h
  · exact absurd hk (by simp)

/-- C3: during key construction (`NewPublicKeyECDSA`, `NewPrivateKeyECDSA`,
and the shared `newECKey`) the native point and every bignum allocated for
X, Y and D are released on every exit path, on every failure the key object
is released before the error is returned, and a returned key handle is
allocated exactly once and never released — no partially constructed handle
escapes. -/
theorem keyConstruction_resource_safety (E : ECEngine) (curve : String)
    (X Y D : Int) :
    bnPointBalanced (newECKey E curve X Y).2 ∧
    bnPointBalanced (NewPublicKeyECDSA E curve X Y).2 ∧
    bnPointBalanced (NewPrivateKeyECDSA E curve X Y D).2 ∧
    (∀ e, (newECKey E curve X Y).1 = .error e →
      keyBalanced (newECKey E curve X Y).2) ∧
    (∀ e, (NewPublicKeyECDSA E curve X Y).1 = .error e →
      keyBalanced (NewPublicKeyECDSA E curve X Y).2) ∧
    (∀ e, (NewPrivateKeyECDSA E curve X Y D).1 = .error e →
      keyBalanced (NewPrivateKeyECDSA E curve X Y D).2) ∧
    (∀ k, (newECKey E curve X Y).1 = .ok k →
      keyRetained (newECKey E curve X Y).2 k) ∧
    (∀ k, (NewPrivateKeyECDSA E curve X Y D).1 = .ok k →
      keyRetained (NewPrivateKeyECDSA E curve X Y D).2 k) := by
  have hpub : NewPublicKeyECDSA E curve X Y = newECKey E curve X Y := rfl
  refine ⟨newECKey_bnPointBalanced E curve X Y, ?_, ?_, ?_, ?_, ?_, ?_, ?_⟩
  · rw [hpub]; exact newECKey_bnPointBalanced E curve X Y
  · -- private-key trace balance for bignums and the point
    cases hnk : newECKey E curve X Y with
    | mk res evs =>
      have hbase : bnPointBalanced evs := by
        have := newECKey_bnPointBalanced E curve X Y
        rw [hnk] at this
        exact this
      cases res with
      | error e =>
        rw [NewPrivateKeyECDSA_err hnk D]
        exact hbase
      | ok k =>
        rw [NewPrivateKeyECDSA_ok hnk D]
        by_cases hok : privOk E k D
        · rw [if_pos hok]
          exact bnEvs_append_bnPointBalanced hbase _
        · rw [if_neg hok]
          exact bnPointBalanced_append_freeKey
            (bnEvs_append_bnPointBalanced hbase _) k
  · intro e he
    exact newECKey_err_keyBalanced E curve X Y e he
  · intro e he
    rw [hpub] at he ⊢
    exact newECKey_err_keyBalanced E curve X Y e he
  · -- private-key error paths release the key
    intro e he
    cases hnk : newECKey E curve X Y with
    | mk res evs =>
      cases res with
      | error e2 =>
        rw [NewPrivateKeyECDSA_err hnk D] at he ⊢
        have := newECKey_err_keyBalanced E curve X Y e2 (by rw [hnk])
        rw [hnk] at this
        exact this
      | ok k =>
        rw [NewPrivateKeyECDSA_ok hnk D] at he ⊢
        by_cases hok : privOk E k D
        · rw [if_pos hok] at he
          exact absurd he (by simp)
        · rw [if_neg hok]
          intro h
          have hcnt := newECKey_ok_counts E curve X Y k (by rw [hnk]) h
          rw [hnk] at hcnt
          simp only at hcnt
          obtain ⟨ha, hf⟩ := hcnt
          obtain ⟨b1, b2, b3, b4⟩ := bnEvs_count_key (E.bigToBN D) h
          by_cases hk : h = k
          · subst hk
            simp [List.count_append, ha, hf, b1, b2, b3, b4]
          · simp [List.count_append, ha, hf, b1, b2, b3, b4, hk]
  · intro k hk
    have hcnt := newECKey_ok_counts E curve X Y k hk
    exact ⟨by rw [(hcnt k).1]; simp, (hcnt k).2⟩
  · -- a returned private key is retained
    intro k hk
    cases hnk : newECKey E curve X Y with
    | mk res evs =>
      cases res with
      | error e2 =>
        rw [NewPrivateKeyECDSA_err hnk D] at hk
        exact absurd hk (by simp)
      | ok k2 =>
        rw [NewPrivateKeyECDSA_ok hnk D] at hk ⊢
        by_cases hok : privOk E k2 D
        · rw [if_pos hok] at hk ⊢
          have hkk : k2 = k := by simpa using hk
          subst hkk
          have hcnt := newECKey_ok_counts E curve X Y k2 (by rw [hnk]) k2
          rw [hnk] at hcnt
          obtain ⟨ha, hf⟩ := hcnt
          obtain ⟨b1, b2, b3, b4⟩ := bnEvs_count_key (E.bigToBN D) k2
          constructor <;>
            simp [keyRetained, List.count_append, ha, hf, b1, b2, b3, b4]
        · rw [if_neg hok] at hk
          exact absurd hk (by simp)

/-- Witness for C3: the fully successful engine retains the key, the failing
numeric bridge releases it. -/
theorem keyConstruction_resource_safety_w :
    bnPointBalanced (NewPrivateKeyECDSA engOK "P-256" 1 2 3).2 ∧
    keyBalanced (NewPrivateKeyECDSA engNoBN "P-256" 1 2 3).2 ∧
    keyRetained (NewPrivateKeyECDSA engOK "P-256" 1 2 3).2 1 :=
  ⟨(keyConstruction_resource_safety engOK "P-256" 1 2 3).2.2.1,
   (keyConstruction_resource_safety engNoBN "P-256" 1 2 3).2.2.2.2.2.1
      (newOpenSSLError "EC_POINT_free failed") rfl,
   (keyConstruction_resource_safety engOK "P-256" 1 2 3).2.2.2.2.2.2.2 1 rfl⟩

theorem curveNID_error_value {curve : String} {e : GoError}
    (h : curveNID curve = .error e) : e = errUnknownCurve := by
  unfold curveNID at h
  split at h
  · exact absurd h (by simp)
  · split at h
    · exact absurd h (by simp)
    · split at h
      · exact absurd h (by simp)
      · split at h
        · exact absurd h (by simp)
        · injection h with h1
          exact h1.symm

/-- Exhaustive shape analysis of `GenerateKeyECDSA`. -/
theorem GenerateKeyECDSA_cases (E : ECEngine) (curve : String) :
    (∃ e, GenerateKeyECDSA E curve = (.error e, [])) ∨
    (∃ m k, GenerateKeyECDSA E curve
      = (.error (newOpenSSLError m), [.allocKey k, .freeKey k])) ∨
    (∃ k bx, GenerateKeyECDSA E curve
      = (.error (newOpenSSLError "BN_new failed"),
          [.allocKey k, .allocBN bx, .freeBN bx, .freeKey k])) ∨
    (∃ m k bx bY, GenerateKeyECDSA E curve
      = (.error (newOpenSSLError m),
          [.allocKey k, .allocBN bx, .allocBN bY,
            .freeBN bY, .freeBN bx, .freeKey k])) ∨
    (∃ k bd bx bY, GenerateKeyECDSA E curve
      = (.ok (E.bnToBig bx, E.bnToBig bY, E.bnToBig bd),
          [.allocKey k, .allocBN bx, .allocBN bY,
            .freeBN bY, .freeBN bx, .freeKey k])) := by
  cases hn : curveNID curve with
  | error e => exact Or.inl ⟨e, GenerateKeyECDSA_curveErr hn E⟩
  | ok nid =>
    cases hk : E.keyNewByCurveName nid with
    | none => exact Or.inl ⟨_, GenerateKeyECDSA_keyNil hn hk⟩
    | some k =>
      cases hg : E.generateKey k with
      | false =>
        exact Or.inr (Or.inl ⟨_, k, GenerateKeyECDSA_genFail hn hk hg⟩)
      | true =>
        cases hpt : E.get0PublicKey k with
        | none =>
          exact Or.inr (Or.inl ⟨_, k,
            GenerateKeyECDSA_getNil hn hk hg (Or.inl hpt)⟩)
        | some pt =>
          cases hbd : E.get0PrivateKey k with
          | none =>
            exact Or.inr (Or.inl ⟨_, k,
              GenerateKeyECDSA_getNil hn hk hg (Or.inr hbd)⟩)
          | some bd =>
            cases hbx : E.bnNew 0 with
            | none =>
              exact Or.inr (Or.inl ⟨_, k,
                GenerateKeyECDSA_bnNil0 hn hk hg hpt hbd hbx⟩)
            | some bx =>
              cases hby : E.bnNew 1 with
              | none =>
                exact Or.inr (Or.inr (Or.inl ⟨k, bx,
                  GenerateKeyECDSA_bnNil1 hn hk hg hpt hbd hbx hby⟩))
              | some bY =>
                by_cases haf : E.getAffine (E.get0Group k) pt bx bY
                · refine Or.inr (Or.inr (Or.inr (Or.inr
                    ⟨k, bd, bx, bY, ?_⟩)))
                  rw [GenerateKeyECDSA_run hn hk hg hpt hbd hbx hby, if_pos haf]
                · refine Or.inr (Or.inr (Or.inr (Or.inl
                    ⟨"EC_POINT_get_affine_coordinates_GFp failed", k, bx, bY, ?_⟩)))
                  rw [GenerateKeyECDSA_run hn hk hg hpt hbd hbx hby, if_neg haf]

theorem genTrace6_balanced (k bx bY : Nat) :
    keyBalanced [Event.allocKey k, .allocBN bx, .allocBN bY,
        .freeBN bY, .freeBN bx, .freeKey k] ∧
    bnPointBalanced [Event.allocKey k, .allocBN bx, .allocBN bY,
        .freeBN bY, .freeBN bx, .freeKey k] := by
  constructor
  · intro h
    by_cases h1 : h = k <;> simp [h1]
  · intro h
    by_cases h1 : h = bx
    · by_cases h2 : h = bY
      · have h3 : bx = bY := h1.symm.trans h2
        simp [h1, h3]
      · have h3 : ¬ bx = bY := by rw [← h1]; exact h2
        have h4 : ¬ bY = bx := fun hh => h3 hh.symm
        simp [h1, h3, h4]
    · by_cases h2 : h = bY
      · have h3 : ¬ bY = bx := by rw [← h2]; exact h1
        simp [h2, h3]
      · simp [h1, h2]

theorem GenerateKeyECDSA_ok_inv (E : ECEngine) (curve : String)
    (t : Int × Int × Int) (h : (GenerateKeyECDSA E curve).1 = .ok t) :
    ∃ n k pt bd bx bY, curveNID curve = .ok n ∧
      E.keyNewByCurveName n = some k ∧ E.generateKey k = true ∧
      E.get0PublicKey k = some pt ∧ E.get0PrivateKey k = some bd ∧
      E.bnNew 0 = some bx ∧ E.bnNew 1 = some bY ∧
      E.getAffine (E.get0Group k) pt bx bY = true ∧
      t = (E.bnToBig bx, E.bnToBig bY, E.bnToBig bd) := by
  cases hn : curveNID curve with
  | error e =>
    rw [GenerateKeyECDSA_curveErr hn E] at h; exact absurd h (by simp)
  | ok nid =>
    cases hk : E.keyNewByCurveName nid with
    | none => rw [GenerateKeyECDSA_keyNil hn hk] at h; exact absurd h (by simp)
    | some k =>
      cases hg : E.generateKey k with
      | false =>
        rw [GenerateKeyECDSA_genFail hn hk hg] at h; exact absurd h (by simp)
      | true =>
        cases hpt : E.get0PublicKey k with
        | none =>
          rw [GenerateKeyECDSA_getNil hn hk hg (Or.inl hpt)] at h
          exact absurd h (by simp)
        | some pt =>
          cases hbd : E.get0PrivateKey k with
          | none =>
            rw [GenerateKeyECDSA_getNil hn hk hg (Or.inr hbd)] at h
            exact absurd h (by simp)
          | some bd =>
            cases hbx : E.bnNew 0 with
            | none =>
              rw [GenerateKeyECDSA_bnNil0 hn hk hg hpt hbd hbx] at h
              exact absurd h (by simp)
            | some bx =>
              cases hby : E.bnNew 1 with
              | none =>
                rw [GenerateKeyECDSA_bnNil1 hn hk hg hpt hbd hbx hby] at h
                exact absurd h (by simp)
              | some bY =>
                by_cases haf : E.getAffine (E.get0Group k) pt bx bY
                · rw [GenerateKeyECDSA_run hn hk hg hpt hbd hbx hby,
                    if_pos haf] at h
                  refine ⟨nid, k, pt, bd, bx, bY, rfl, hk, hg, hpt, hbd,
                    rfl, rfl, haf, ?_⟩
                  simpa using h.symm
                · rw [GenerateKeyECDSA_run hn hk hg hpt hbd hbx hby,
                    if_neg haf] at h
                  exact absurd h (by simp)

theorem GenerateKeyECDSA_err_class (E : ECEngine) (curve : String)
    (e : GoError) (h : (GenerateKeyECDSA E curve).1 = .error e) :
    e = errUnknownCurve ∨ ∃ m, e = newOpenSSLError m := by
  cases hn : curveNID curve with
  | error e2 =>
    rw [GenerateKeyECDSA_curveErr hn E] at h
    simp at h
    rw [← h]
    exact Or.inl (curveNID_error_value hn)
  | ok nid =>
    cases hk : E.keyNewByCurveName nid with
    | none =>
      rw [GenerateKeyECDSA_keyNil hn hk] at h
      simp at h
      exact Or.inr ⟨_, h.symm⟩
    | some k =>
      cases hg : E.generateKey k with
      | false =>
        rw [GenerateKeyECDSA_genFail hn hk hg] at h
        simp at h
        exact Or.inr ⟨_, h.symm⟩
      | true =>
        cases hpt : E.get0PublicKey k with
        | none =>
          rw [GenerateKeyECDSA_getNil hn hk hg (Or.inl hpt)] at h
          simp at h
          exact Or.inr ⟨_, h.symm⟩
        | some pt =>
          cases hbd : E.get0PrivateKey k with
          | none =>
            rw [GenerateKeyECDSA_getNil hn hk hg (Or.inr hbd)] at h
            simp at h
            exact Or.inr ⟨_, h.symm⟩
          | some bd =>
            cases hbx : E.bnNew 0 with
            | none =>
              rw [GenerateKeyECDSA_bnNil0 hn hk hg hpt hbd hbx] at h
              simp at h
              exact Or.inr ⟨_, h.symm⟩
            | some bx =>
              cases hby : E.bnNew 1 with
              | none =>
                rw [GenerateKeyECDSA_bnNil1 hn hk hg hpt hbd hbx hby] at h
                simp at h
                exact Or.inr ⟨_, h.symm⟩
              | some bY =>
                by_cases haf : E.getAffine (E.get0Group k) pt bx bY
                · rw [GenerateKeyECDSA_run hn hk hg hpt hbd hbx hby,
                    if_pos haf] at h
                  exact absurd h (by simp)
                · rw [GenerateKeyECDSA_run hn hk hg hpt hbd hbx hby,
                    if_neg haf] at h
                  simp at h
                  exact Or.inr ⟨_, h.symm⟩

/-- C7: `GenerateKeyECDSA` either returns a complete (X, Y, D) triple — in
which case every native step succeeded and the triple is the converted
coordinates and scalar — or an error: `errUnknownCurve` when resolution
fails, an EngineError when any native call returns null/zero; and the key
object and both bignums are released on every path. -/
theorem generateKeyECDSA_total_and_released (E : ECEngine) (curve : String) :
    keyBalanced (GenerateKeyECDSA E curve).2 ∧
    bnPointBalanced (GenerateKeyECDSA E curve).2 ∧
    (∀ e, curveNID curve = .error e →
      GenerateKeyECDSA E curve = (.error errUnknownCurve, [])) ∧
    (∀ e, (GenerateKeyECDSA E curve).1 = .error e →
      e = errUnknownCurve ∨ ∃ m, e = newOpenSSLError m) ∧
    (∀ t, (GenerateKeyECDSA E curve).1 = .ok t →
      ∃ n k pt bd bx bY, curveNID curve = .ok n ∧
        E.keyNewByCurveName n = some k ∧ E.generateKey k = true ∧
        E.get0PublicKey k = some pt ∧ E.get0PrivateKey k = some bd ∧
        E.bnNew 0 = some bx ∧ E.bnNew 1 = some bY ∧
        E.getAffine (E.get0Group k) pt bx bY = true ∧
        t = (E.bnToBig bx, E.bnToBig bY, E.bnToBig bd)) := by
  refine ⟨?_, ?_, ?_, GenerateKeyECDSA_err_class E curve,
    GenerateKeyECDSA_ok_inv E curve⟩
  · rcases GenerateKeyECDSA_cases E curve with ⟨e, hh⟩ | ⟨m, k, hh⟩
      | ⟨k, bx, hh⟩ | ⟨m, k, bx, bY, hh⟩ | ⟨k, bd, bx, bY, hh⟩ <;> rw [hh]
    · intro h; simp
    · intro h; by_cases h1 : h = k <;> simp [h1]
    · intro h; by_cases h1 : h = k <;> simp [h1]
    · exact (genTrace6_balanced k bx bY).1
    · exact (genTrace6_balanced k bx bY).1
  · rcases GenerateKeyECDSA_cases E curve with ⟨e, hh⟩ | ⟨m, k, hh⟩
      | ⟨k, bx, hh⟩ | ⟨m, k, bx, bY, hh⟩ | ⟨k, bd, bx, bY, hh⟩ <;> rw [hh]
    · intro h; simp
    · intro h; simp
    · intro h; by_cases h1 : h = bx <;> simp [h1]
    · exact (genTrace6_balanced k bx bY).2
    · exact (genTrace6_balanced k bx bY).2
  · intro e he
    have h1 := curveNID_error_value he
    subst h1
    exact GenerateKeyECDSA_curveErr he E

/-- Witness for C7 on concrete engines: full success on "P-256", definite
rejection of an unknown curve. -/
theorem generateKeyECDSA_total_and_released_w :
    keyBalanced (GenerateKeyECDSA engOK "P-256").2 ∧
    GenerateKeyECDSA engOK "P-999" = (.error errUnknownCurve, []) ∧
    (∃ n k pt bd bx bY, curveNID "P-256" = .ok n ∧
      engOK.keyNewByCurveName n = some k ∧ engOK.generateKey k = true ∧
      engOK.get0PublicKey k = some pt ∧ engOK.get0PrivateKey k = some bd ∧
      engOK.bnNew 0 = some bx ∧ engOK.bnNew 1 = some bY ∧
      engOK.getAffine (engOK.get0Group k) pt bx bY = true ∧
      ((7 : Int), (8 : Int), (6 : Int))
        = (engOK.bnToBig bx, engOK.bnToBig bY, engOK.bnToBig bd)) :=
  ⟨(generateKeyECDSA_total_and_released engOK "P-256").1,
   (generateKeyECDSA_total_and_released engOK "P-999").2.2.1 errUnknownCurve rfl,
   (generateKeyECDSA_total_and_released engOK "P-256").2.2.2.2 (7, 8, 6) rfl⟩

/-- C4: the decomposed (R, S) pair and the DER byte form are lossless
inverses of each other: encoding any pair and decoding it returns the same
pair with nothing left over, and any byte sequence that decodes to a pair
(with trailing rest) is byte-identical to the re-encoding of that pair
followed by the rest — in particular re-encoding a decoded well-formed DER
signature reproduces it exactly. -/
theorem derSignature_lossless_roundtrip :
    (∀ r s : Int,
      Der.unmarshalSig (Der.marshalSigBytes r s) = some ((r, s), [])) ∧
    (∀ bs : List Nat, Der.ValidBytes bs → ∀ r s : Int, ∀ rest : List Nat,
      Der.unmarshalSig bs = some ((r, s), rest) →
      bs = Der.marshalSigBytes r s ++ rest) ∧
    (∀ r s : Int, marshalSig (some r) (some s) = .ok (Der.marshalSigBytes r s)) := by
  refine ⟨?_, ?_, ?_⟩
  · intro r s
    have h := Der.unmarshalSig_marshalSigBytes r s []
    simpa using h
  · intro bs hv r s rest h
    exact Der.marshalSigBytes_unmarshalSig hv h
  · intro r s; rfl

/-- Witness for C4 at the concrete pair (-300, 127). -/
theorem derSignature_lossless_roundtrip_w :
    Der.unmarshalSig (Der.marshalSigBytes (-300) 127) = some ((-300, 127), []) ∧
    ([48, 7, 2, 2, 254, 212, 2, 1, 127] : List Nat)
      = Der.marshalSigBytes (-300) 127 ++ [] ∧
    marshalSig (some (-300)) (some 127) = .ok (Der.marshalSigBytes (-300) 127) :=
  ⟨derSignature_lossless_roundtrip.1 (-300) 127,
   derSignature_lossless_roundtrip.2.1 [48, 7, 2, 2, 254, 212, 2, 1, 127]
      (by unfold Der.ValidBytes; decide) (-300) 127 [] (by decide),
   derSignature_lossless_roundtrip.2.2 (-300) 127⟩

end OpensslEC
